import Mathlib

/-!
Verification development for the receipt-extraction pipeline of the
ReceiptTrackerBE repository.  The two extraction modules
(`ocr_processor.py` and `simple_ocr.py`) are shallowly embedded below:
Python strings become `String` (positions and lengths are counted in code
points, matching Python `str` indexing), Python floats become exact
rationals `ℚ` (all numerals in scope are short decimal literals), Python
exceptions become `Except String`, and Python `None` becomes `Option`.
The regular-expression calls are embedded through a small backtracking
engine whose result ordering mirrors CPython `re` semantics: leftmost
match first, then backtracking priority (greedy repetitions try longer
first, lazy ones shorter first, alternatives left to right).
-/

/-- Decidable equality for `Except`, needed to settle concrete runs of
the fallible extractors by evaluation. -/
instance {ε α : Type} [DecidableEq ε] [DecidableEq α] : DecidableEq (Except ε α) := fun a b =>
  match a, b with
  | .error x, .error y =>
    if h : x = y then isTrue (by rw [h]) else isFalse (fun hc => h (Except.error.inj hc))
  | .error _, .ok _ => isFalse (fun hc => Except.noConfusion hc)
  | .ok _, .error _ => isFalse (fun hc => Except.noConfusion hc)
  | .ok x, .ok y =>
    if h : x = y then isTrue (by rw [h]) else isFalse (fun hc => h (Except.ok.inj hc))

namespace Receipt

/-! ## Python string primitives -/

/-- Python `\s` for the ASCII range (the receipts in scope are ASCII plus
the naira sign, which is not whitespace). -/
def pyWs (c : Char) : Bool :=
  c == ' ' || c == '\t' || c == '\n' || c == '\r' || c == '\x0b' || c == '\x0c'

/-- Python `str.lower()` (character-wise; ASCII letters). -/
def pyLower (s : String) : String := String.mk (s.data.map Char.toLower)

/-- Substring test on character lists. -/
def isSubL (needle : List Char) : List Char → Bool
  | [] => needle.isEmpty
  | c :: cs => needle.isPrefixOf (c :: cs) || isSubL needle cs

/-- Python `needle in hay` substring test. -/
def occursIn (needle hay : String) : Bool := isSubL needle.data hay.data

/-- Python `str.strip()`. -/
def pyStrip (s : String) : String :=
  String.mk (((s.data.dropWhile pyWs).reverse.dropWhile pyWs).reverse)

/-- Python `str.split("\n")` on the character list. -/
def splitNl : List Char → List (List Char)
  | [] => [[]]
  | c :: cs =>
    let r := splitNl cs
    if c = '\n' then [] :: r
    else
      match r with
      | h :: t => (c :: h) :: t
      | [] => [[c]]

/-- The non-empty stripped lines of a text:
`[line.strip() for line in text.split("\n") if line.strip()]`. -/
def linesOf (s : String) : List String :=
  ((splitNl s.data).map (fun l => pyStrip (String.mk l))).filter (fun l => l ≠ "")

/-- Python `s.split(sep, 1)` restricted to the case where `sep` occurs:
returns the parts before and after the first occurrence, `none` when the
separator does not occur. -/
def splitOnceL (sep : List Char) : List Char → Option (List Char × List Char)
  | [] => if sep.isEmpty then some ([], []) else none
  | c :: cs =>
    if sep.isPrefixOf (c :: cs) then some ([], (c :: cs).drop sep.length)
    else (splitOnceL sep cs).map (fun pr => (c :: pr.1, pr.2))

def splitOnce (s sep : String) : Option (String × String) :=
  (splitOnceL sep.data s.data).map (fun pr => (String.mk pr.1, String.mk pr.2))

/-- Python `str.isdigit()` for ASCII digit strings. -/
def pyIsdigit (s : String) : Bool := !s.data.isEmpty && s.data.all Char.isDigit

/-- Python `str.title()` for ASCII: the first letter of every maximal
letter run is upper-cased, the others lower-cased. -/
def pyTitleGo : Bool → List Char → List Char
  | _, [] => []
  | prevAlpha, c :: cs =>
    if c.isAlpha then
      (if prevAlpha then c.toLower else c.toUpper) :: pyTitleGo true cs
    else c :: pyTitleGo false cs

def pyTitle (s : String) : String := String.mk (pyTitleGo false s.data)

/-- Value of an ASCII digit string, most significant digit first. -/
def natOfDigits (l : List Char) : Nat := l.foldl (fun a c => 10 * a + (c.toNat - 48)) 0

/-!
Exact rational arithmetic.  The `Rat` operations of the ambient library
are `@[irreducible]`, which blocks kernel evaluation of concrete
instances; the pipeline below therefore uses the following equivalents,
written through the reducible normalizing constructor `Rat.divInt`.
`qAdd_eq`, `qMul_eq`, `qDiv_eq` and `qMin_eq` (proved later) identify
them with the ordinary field operations of `ℚ`.
-/

def qAdd (a b : ℚ) : ℚ := Rat.divInt (a.num * b.den + b.num * a.den) (a.den * b.den)

def qMul (a b : ℚ) : ℚ := Rat.divInt (a.num * b.num) ((a.den : Int) * (b.den : Int))

/-- Exact division; division by zero yields zero, as in `ℚ`. -/
def qDiv (a b : ℚ) : ℚ := Rat.divInt (a.num * b.den) ((a.den : Int) * b.num)

def qMin (a b : ℚ) : ℚ := if a ≤ b then a else b

/-- Remove every comma: Python `s.replace(",", "")`. -/
def stripCommas (s : String) : String := String.mk (s.data.filter (fun c => c ≠ ','))

def notDot (c : Char) : Bool := c != '.'

/-- Python `float(s)` for the strings reachable here (optional integer
part, optional dot, optional fractional part, at least one digit; no
sign, exponent or whitespace ever occurs in a matched numeral).  `none`
models `ValueError`. -/
def pyFloat (s : String) : Option ℚ :=
  let cs := s.data
  let ip := cs.takeWhile notDot
  match cs.dropWhile notDot with
  | [] =>
    if !ip.isEmpty && ip.all Char.isDigit then some ((natOfDigits ip : ℚ)) else none
  | _ :: fp =>
    if (!ip.isEmpty || !fp.isEmpty) && ip.all Char.isDigit && fp.all Char.isDigit then
      some (Rat.divInt ((natOfDigits ip * 10 ^ fp.length + natOfDigits fp : Nat) : Int)
        (((10 ^ fp.length : Nat) : Int)))
    else none

/-- Independent rendering of the specification sentence: a numeral is
interpreted as a base-10 decimal by a single left-to-right scan that
accumulates integer digits by `acc * 10 + d` and fractional digits at
successively smaller powers of ten.  Written deliberately in a different
style from `pyFloat` so that agreement between the two is a theorem, not
a restatement. -/
def decGo : List Char → ℚ → Bool → ℚ → Bool → Option ℚ
  | [], acc, _, _, seen => if seen then some acc else none
  | c :: cs, acc, afterDot, scale, seen =>
    if c.isDigit then
      if afterDot then
        decGo cs (acc + ((c.toNat - 48 : Nat) : ℚ) * (scale / 10)) true (scale / 10) true
      else
        decGo cs (10 * acc + ((c.toNat - 48 : Nat) : ℚ)) false scale true
    else if c = '.' then
      if afterDot then none else decGo cs acc true scale seen
    else none

def decimalValue (s : String) : Option ℚ := decGo s.data 0 false 1 false

/-! ## A small backtracking regex engine

Only the constructs used by the two modules are embedded: character
classes, literals (optionally case-insensitive), concatenation,
alternation, bounded/unbounded repetition (greedy or lazy), capture
groups, and the multiline anchors `^` `$`.  `mrun` returns the list of
ways a node can match, in CPython backtracking priority order; callers
take the head. -/

inductive RE where
  | eps : RE
  | cls : (Char → Bool) → RE
  | lit : List Char → Bool → RE
  | seq : RE → RE → RE
  | alt : RE → RE → RE
  | rep : RE → Nat → Option Nat → Bool → RE
  | grp : Nat → RE → RE
  | bol : RE
  | eol : RE

/-- Matcher state: absolute position (in code points), remaining input,
whether the position is at the start of a line, captures so far (group
index, captured characters; the most recent entry for an index wins). -/
structure MSt where
  pos : Nat
  rest : List Char
  atBol : Bool
  caps : List (Nat × List Char)

def chEq (ci : Bool) (a b : Char) : Bool :=
  if ci then a.toLower == b.toLower else a == b

def litFits (ci : Bool) : List Char → List Char → Bool
  | [], _ => true
  | _ :: _, [] => false
  | c :: cs, d :: ds => chEq ci c d && litFits ci cs ds

def lastIsNl (seg : List Char) (dflt : Bool) : Bool :=
  match seg.getLast? with
  | some c => c == '\n'
  | none => dflt

/-- All ways `r` can match a prefix of `st.rest`, in priority order.
Fuel decreases on every recursive call; `reFuel` below is always enough
because every repetition body in the embedded patterns consumes at least
one character (zero-width iterations are cut, as CPython does). -/
def mrun : Nat → RE → MSt → List MSt
  | 0, _, _ => []
  | _ + 1, .eps, st => [st]
  | _ + 1, .cls p, st =>
    match st.rest with
    | [] => []
    | c :: cs => if p c then [⟨st.pos + 1, cs, c == '\n', st.caps⟩] else []
  | _ + 1, .lit s ci, st =>
    if litFits ci s st.rest then
      [⟨st.pos + s.length, st.rest.drop s.length,
        lastIsNl (st.rest.take s.length) st.atBol, st.caps⟩]
    else []
  | f + 1, .seq a b, st => (mrun f a st).flatMap (fun st2 => mrun f b st2)
  | f + 1, .alt a b, st => mrun f a st ++ mrun f b st
  | f + 1, .rep a lo hi g, st =>
    let stop := if lo = 0 then [st] else []
    let go :=
      if hi = some 0 then []
      else
        ((mrun f a st).filter (fun st2 => st.pos < st2.pos)).flatMap
          (fun st2 => mrun f (.rep a (lo - 1) (hi.map (· - 1)) g) st2)
    if g then go ++ stop else stop ++ go
  | f + 1, .grp i a, st =>
    (mrun f a st).map
      (fun st2 => { st2 with caps := (i, st.rest.take (st2.pos - st.pos)) :: st2.caps })
  | _ + 1, .bol, st => if st.atBol then [st] else []
  | _ + 1, .eol, st =>
    if st.rest.isEmpty || st.rest.head? == some '\n' then [st] else []

def reSize : RE → Nat
  | .eps => 1
  | .cls _ => 1
  | .lit _ _ => 1
  | .seq a b => reSize a + reSize b + 1
  | .alt a b => reSize a + reSize b + 1
  | .rep a _ _ _ => reSize a + 1
  | .grp _ a => reSize a + 1
  | .bol => 1
  | .eol => 1

def reFuel (r : RE) (n : Nat) : Nat := (reSize r + 2) * (n + 3)

abbrev Caps := List (Nat × List Char)

def capsGet (caps : Caps) (i : Nat) : Option String :=
  (caps.find? (fun e => e.1 == i)).map (fun e => String.mk e.2)

/-- Anchored match attempt at position `i` of `text`; returns the end
position and captures of the highest-priority match. -/
def matchAt (r : RE) (text : List Char) (i : Nat) : Option (Nat × Caps) :=
  let b : Bool := if i = 0 then true else (text.getD (i - 1) ' ') == '\n'
  ((mrun (reFuel r (text.length + 1)) r ⟨i, text.drop i, b, []⟩).head?).map
    (fun st => (st.pos, st.caps))

def searchGo (r : RE) (text : List Char) : Nat → Nat → Option (Nat × Nat × Caps)
  | _, 0 => none
  | i, f + 1 =>
    match matchAt r text i with
    | some (e, caps) => some (i, e, caps)
    | none => if i < text.length then searchGo r text (i + 1) f else none

/-- `re.search`: leftmost match, as (start, end, captures). -/
def reSearch (r : RE) (text : List Char) : Option (Nat × Nat × Caps) :=
  searchGo r text 0 (text.length + 1)

def fiGo (r : RE) (text : List Char) : Nat → Nat → List (Nat × Nat × Caps)
  | _, 0 => []
  | i, f + 1 =>
    match searchGo r text i (text.length + 1 - i) with
    | none => []
    | some (s, e, caps) => (s, e, caps) :: fiGo r text (if s < e then e else e + 1) f

/-- `re.finditer`: successive non-overlapping leftmost matches. -/
def reFinditer (r : RE) (text : List Char) : List (Nat × Nat × Caps) :=
  fiGo r text 0 (text.length + 2)

/-- `re.match`: anchored at position 0 only. -/
def reMatchStart (r : RE) (text : List Char) : Option Caps :=
  (matchAt r text 0).map (fun pr => pr.2)

/-- `re.findall` for a pattern with a single capture group. -/
def findallG1 (r : RE) (text : List Char) : List String :=
  (reFinditer r text).filterMap (fun m => capsGet m.2.2 1)

/-! ### Pattern construction helpers -/

def rcat (l : List RE) : RE := l.foldr RE.seq RE.eps

def rnone : RE := RE.cls (fun _ => false)

def ralt (l : List RE) : RE :=
  match l with
  | [] => rnone
  | [r] => r
  | r :: rs => RE.alt r (ralt rs)

def rchar (c : Char) : RE := RE.cls (fun d => d == c)
def rlit (s : String) : RE := RE.lit s.data false
def rliti (s : String) : RE := RE.lit s.data true
def ropt (r : RE) : RE := RE.rep r 0 (some 1) true
def rstar (r : RE) : RE := RE.rep r 0 none true
def rplus (r : RE) : RE := RE.rep r 1 none true
def rplusLazy (r : RE) : RE := RE.rep r 1 none false
def rrep (r : RE) (lo hi : Nat) : RE := RE.rep r lo (some hi) true

/-- `[0-9]` -/
def dC : RE := RE.cls Char.isDigit
/-- `[0-9,]` -/
def dcC : RE := RE.cls (fun c => c.isDigit || c == ',')
/-- `\s` -/
def wsC : RE := RE.cls pyWs
/-- `[:\s]` -/
def colonWsC : RE := RE.cls (fun c => c == ':' || pyWs c)
/-- `[A-Z]` (and `[A-Za-z]`) under `re.IGNORECASE`: any ASCII letter. -/
def alphaC : RE := RE.cls Char.isAlpha
/-- `[A-Z\s&.-]` and `[A-Za-z\s&.-]` under `re.IGNORECASE`. -/
def vendorC : RE := RE.cls (fun c => c.isAlpha || pyWs c || c == '&' || c == '.' || c == '-')
/-- `[A-Za-z\s\.,&-]` (line-item name class). -/
def nameC : RE :=
  RE.cls (fun c => c.isAlpha || pyWs c || c == '.' || c == ',' || c == '&' || c == '-')
/-- `[A-Z\s]` under `re.IGNORECASE`. -/
def alphaWsC : RE := RE.cls (fun c => c.isAlpha || pyWs c)

/-! ## ocr_processor.py -/

namespace OcrProcessor

/-- `([0-9,]+\.?\d{0,2})` as capture group 1. -/
def amtGroup : RE :=
  RE.grp 1 (rcat [rplus dcC, ropt (rchar '.'), rrep dC 0 2])

/-- `[0-9]{1,3}(?:,[0-9]{3})*\.?[0-9]{0,2}` (standalone amount shape). -/
def standaloneNum : RE :=
  rcat [rrep dC 1 3, rstar (rcat [rchar ',', rrep dC 3 3]), ropt (rchar '.'), rrep dC 0 2]

/-- The ten amount patterns of `extract_amount`, in source order. -/
def amountPatterns : List RE :=
  [ rcat [rchar '₦', rstar wsC, amtGroup],
    rcat [amtGroup, rstar wsC, rliti "naira"],
    rcat [rliti "total", rstar colonWsC, ropt (rchar '₦'), rstar wsC, amtGroup],
    rcat [rliti "amount", rstar colonWsC, ropt (rchar '₦'), rstar wsC, amtGroup],
    rcat [rchar '$', rstar wsC, amtGroup],
    rcat [amtGroup, rstar wsC, rliti "USD"],
    rcat [rliti "total", rstar colonWsC, ropt (rchar '$'), rstar wsC, amtGroup],
    rcat [rliti "amount", rstar colonWsC, ropt (rchar '$'), rstar wsC, amtGroup],
    rcat [RE.bol, RE.grp 1 standaloneNum, RE.eol],
    rcat [rchar '\n', RE.grp 1 standaloneNum, rchar '\n'] ]

/-- All numeric candidates of `extract_amount`: every pattern in order,
every non-overlapping match in text order; the matched group has its
commas removed and is parsed (unparsable candidates are skipped, mirroring
the per-candidate `except` clause); candidates above 1000000 are dropped.
Each survivor is paired with the start position of its match; the source
stores the normalized position `match.start() / len(text)`, recovered
exactly in `scoreOf` below (exact rational arithmetic in place of IEEE
floats). -/
def amountCandidates (text : String) : List (ℚ × Nat) :=
  amountPatterns.flatMap (fun p =>
    (reFinditer p text.data).filterMap (fun m =>
      (capsGet m.2.2 1).bind (fun g =>
        (pyFloat (stripCommas g)).bind (fun amt =>
          if amt > 1000000 then none else some (amt, m.1)))))

/-- Candidates that survive the significance filter `amt >= 0.50`. -/
def significantAmounts (text : String) : List (ℚ × Nat) :=
  (amountCandidates text).filter (fun c => Rat.divInt 1 2 ≤ c.1)

def amountKeywords : List String := ["total", "due", "amount due", "pay"]

/-- The 100-character context window `text[max(0, start-50) : start+50]`,
lower-cased, searched for a scoring keyword. -/
def keywordNear (text : String) (start : Nat) : Bool :=
  let w := pyLower (String.mk ((text.data.drop (start - 50)).take (start + 50 - (start - 50))))
  amountKeywords.any (fun k => occursIn k w)

/-- Composite score: normalized position times 100, plus magnitude capped
at 1000, plus a bonus of 50 when a keyword occurs in the window.
`scoreOf_spec` below restates it with the ordinary `ℚ` operations. -/
def scoreOf (text : String) (c : ℚ × Nat) : ℚ :=
  qAdd (qAdd (qMul (qDiv ((c.2 : Nat) : ℚ) ((text.length : Nat) : ℚ)) 100) (qMin c.1 1000))
    (if keywordNear text c.2 then 50 else 0)

/-- Stable insertion of `x` in front of the first element with a key not
above its own (descending order; on ties the earlier element stays first,
as Python `list.sort(key=..., reverse=True)` is stable). -/
def insertDescBy (f : α → ℚ) (x : α) : List α → List α
  | [] => [x]
  | y :: ys => if f y ≤ f x then x :: y :: ys else y :: insertDescBy f x ys

def sortDescBy (f : α → ℚ) : List α → List α
  | [] => []
  | x :: xs => insertDescBy f x (sortDescBy f xs)

/-- `extract_amount`: collect candidates, filter, fall back to the first
raw candidate when filtering empties the set, otherwise sort by score
descending and return the front amount. -/
def extract_amount (text : String) : Option ℚ :=
  match amountCandidates text with
  | [] => none
  | c :: _ =>
    let s := significantAmounts text
    if s = [] then some c.1
    else
      match (sortDescBy (scoreOf text) s).head? with
      | some b => some b.1
      | none => none

def monAbbr : RE :=
  ralt [rliti "Jan", rliti "Feb", rliti "Mar", rliti "Apr", rliti "May", rliti "Jun",
        rliti "Jul", rliti "Aug", rliti "Sep", rliti "Oct", rliti "Nov", rliti "Dec"]

def ordSuffix : RE := ropt (ralt [rliti "st", rliti "nd", rliti "rd", rliti "th"])

def dashSlash : RE := RE.cls (fun c => c == '-' || c == '/')

/-- The seven date patterns of `extract_date`, in source order. -/
def datePatterns : List RE :=
  [ RE.grp 1 (rcat [rliti "Nov", rplus wsC, rrep dC 1 2, ordSuffix, ropt (rchar ','),
      rplus wsC, rrep dC 4 4, rplus wsC, rrep dC 1 2, rchar ':', rrep dC 2 2,
      rchar ':', rrep dC 2 2]),
    RE.grp 1 (rcat [rliti "Nov", rplus wsC, rrep dC 1 2, ordSuffix, ropt (rchar ','),
      rplus wsC, rrep dC 4 4]),
    RE.grp 1 (rcat [rrep dC 1 2, dashSlash, rrep dC 1 2, dashSlash, rrep dC 2 4]),
    RE.grp 1 (rcat [rrep dC 1 2, rplus wsC, monAbbr, rstar alphaC, rplus wsC, rrep dC 2 4]),
    RE.grp 1 (rcat [monAbbr, rstar alphaC, rplus wsC, rrep dC 1 2, ordSuffix,
      ropt (rchar ','), rplus wsC, rrep dC 2 4]),
    RE.grp 1 (rcat [rrep dC 4 4, rchar '-', rrep dC 1 2, rchar '-', rrep dC 1 2]),
    RE.grp 1 (rcat [rrep dC 2 2, rchar '/', rrep dC 2 2, rchar '/', rrep dC 4 4]) ]

/-- `extract_date`: first pattern with a match wins, first occurrence in
the text, stripped. -/
def extract_date (text : String) : Option String :=
  match datePatterns.findSome? (fun p =>
    (reSearch p text.data).bind (fun m => capsGet m.2.2 1)) with
  | some d => some (pyStrip d)
  | none => none

/-- `(?:LTD|LIMITED|INC|COMPANY|CORP|PLC)` -/
def companySuffix : RE :=
  ralt [rliti "LTD", rliti "LIMITED", rliti "INC", rliti "COMPANY", rliti "CORP", rliti "PLC"]

/-- The four vendor patterns of `extract_vendor`, in source order. -/
def vendorPatterns : List RE :=
  [ rcat [rliti "recipient details", rplus wsC,
      RE.grp 1 (rcat [alphaC, rplus vendorC, ropt companySuffix])],
    rcat [rliti "merchant", rplus colonWsC,
      RE.grp 1 (rcat [alphaC, rplus vendorC, ropt companySuffix])],
    rcat [rliti "payee", rplus colonWsC,
      RE.grp 1 (rcat [alphaC, rplus vendorC, ropt companySuffix])],
    RE.grp 1 (rcat [alphaC, rplus vendorC, companySuffix]) ]

/-- Post-processing of one vendor pattern match: strip, keep only the
first line of the captured text, require length above 3 and no "bank". -/
def vendorOfMatch (g : String) : Option String :=
  let v0 := pyStrip g
  let v := pyStrip (String.mk (v0.data.takeWhile (fun c => c ≠ '\n')))
  if 3 < v.length && !occursIn "bank" (pyLower v) then some v else none

/-- Boilerplate tokens that disqualify a line in the uppercase fallback. -/
def vendorSkipKws : List String :=
  ["transaction", "receipt", "successful", "opay", "@", "nov ", "session", "enjoy"]

/-- Characters kept by `re.sub(r"[^\w\s&.-]", "", line)`. -/
def keepSubChar (c : Char) : Bool :=
  c.isAlphanum || c == '_' || pyWs c || c == '&' || c == '.' || c == '-'

/-- Fallback 1: first line with more than 60 percent uppercase letters
(counted against the full line length), skipping boilerplate lines.  The
source guard `count > len(line) * 0.6` is taken in exact arithmetic:
`3 * len < 5 * count`. -/
def upperLineStage (lines : List String) : Option String :=
  lines.findSome? (fun line =>
    if vendorSkipKws.any (fun k => occursIn k (pyLower line)) then none
    else if 3 < line.length &&
        3 * line.length < 5 * (line.data.filter Char.isUpper).length then
      some (pyStrip (String.mk (line.data.filter keepSubChar)))
    else none)

/-- Fallback 2: first line longer than 3 characters without an obvious
non-vendor token. -/
def lastResortStage (lines : List String) : Option String :=
  lines.findSome? (fun line =>
    if 3 < line.length &&
        !(["@", "transaction", "receipt"].any (fun k => occursIn k (pyLower line))) then
      some (pyStrip (String.mk (line.data.filter keepSubChar)))
    else none)

/-- `extract_vendor`: pattern stage (first valid match over the four
patterns), then the uppercase-line fallback, then the last-resort line. -/
def extract_vendor (text : String) : Option String :=
  let lines := linesOf text
  match vendorPatterns.findSome? (fun p =>
    (reFinditer p text.data).findSome? (fun m =>
      (capsGet m.2.2 1).bind vendorOfMatch)) with
  | some v => some v
  | none =>
    match upperLineStage lines with
    | some v => some v
    | none => lastResortStage lines

/-- The category keyword table of `classify_category`, in source
(insertion) order. -/
def categoriesTable : List (String × List String) :=
  [ ("financial", ["opay", "bank", "transfer", "payment", "transaction", "mobile money", "fintech"]),
    ("electronics", ["electro", "galactica", "electronics", "computer", "tech", "gadget"]),
    ("technology", ["hosting", "domain", "server", "cloud", "software", "saas", "railway", "vercel", "netlify", "aws", "invoice"]),
    ("business", ["company ltd", "limited", "corporation", "enterprise", "services", "consultant"]),
    ("groceries", ["grocery", "supermarket", "food", "market", "shoprite", "spar", "provision"]),
    ("restaurant", ["restaurant", "cafe", "pizza", "dining", "bar", "grill", "kitchen", "eatery"]),
    ("fuel", ["gas", "fuel", "petrol", "filling station", "total", "mobil", "oando"]),
    ("retail", ["store", "shop", "mall", "boutique", "clothing", "fashion"]),
    ("pharmacy", ["pharmacy", "medical", "drug", "health", "hospital", "clinic"]),
    ("transportation", ["uber", "bolt", "taxi", "bus", "transport", "travel"]),
    ("utilities", ["electric", "water", "nepa", "internet", "phone", "utility", "telecom", "mtn", "airtel"]),
    ("education", ["school", "university", "education", "training", "course"]) ]

/-- `classify_category`: first category whose keyword occurs in the
lower-cased `(vendor or "") + " " + text` (the search haystack `content`
of the source, inlined). -/
def classify_category (vendor : Option String) (text : String) : String :=
  match categoriesTable.findSome? (fun cat =>
    if cat.2.any (fun k => occursIn k (pyLower ((vendor.getD "") ++ " " ++ text))) then
      some cat.1
    else none) with
  | some c => c
  | none => "other"

/-- One purchased row.  Quantities are Python ints, prices Python floats
(embedded as exact rationals; the only divisions in scope are exact). -/
structure LineItem where
  name : String
  quantity : Int
  unit_price : ℚ
  total_price : ℚ
deriving DecidableEq, Repr

/-- `(Pcs?|REGULAR)` -/
def unitWord : RE := ralt [rcat [rliti "Pc", ropt (rliti "s")], rliti "REGULAR"]

/-- Price capture `([0-9,]+\.?\d{0,2})` under group index `i`. -/
def priceGrp (i : Nat) : RE :=
  RE.grp i (rcat [rplus dcC, ropt (rchar '.'), rrep dC 0 2])

/-- Line-item name capture `([A-Za-z][A-Za-z\s\.,&-]+?)` (lazy). -/
def liName : RE := RE.grp 1 (rcat [alphaC, rplusLazy nameC])

/-- The three line-item patterns, in source order, each paired with its
number of capture groups (Python dispatches on `len(match.groups())`,
which is fixed per pattern). -/
def itemPatterns : List (Nat × RE) :=
  [ (4, rcat [RE.bol, liName, rplus wsC, RE.grp 2 unitWord, rplus wsC,
      RE.grp 3 (rplus dC), rplus wsC, priceGrp 4, RE.eol]),
    (2, rcat [RE.bol, liName, rplus wsC, priceGrp 2, RE.eol]),
    (3, rcat [RE.bol, liName, rplus wsC,
      ropt (ralt [rcat [rliti "Pc", ropt (rliti "s")], rliti "REGULAR", rliti "x"]),
      rstar wsC, ropt (RE.grp 2 (rplus dC)), rstar wsC, ropt (rliti "x"),
      rstar wsC, priceGrp 3, RE.eol]) ]

/-- Python `float(s.replace(",", ""))` with the `ValueError` text. -/
def pyFloatE (s : String) : Except String ℚ :=
  match pyFloat (stripCommas s) with
  | some q => .ok q
  | none => .error ("could not convert string to float: " ++ s)

/-- The `AttributeError` raised by `None.replace` in the three-group
branch when the optional quantity group did not participate (the Python
message carries quotes around the names; they are elided here). -/
def noneReplaceMsg : String := "NoneType object has no attribute replace"

/-- An item from a branch with an explicit quantity group: unit price is
`total / quantity`, or the total itself when the quantity is zero (the
division-by-zero guard of the source). -/
def mkQtyItem (name : String) (n : Nat) (total : ℚ) : LineItem :=
  ⟨pyTitle (pyStrip name), (n : Int),
    if ((n : Nat) : Int) > 0 then qDiv total (((n : Nat) : Int) : ℚ) else total, total⟩

/-- An item from a branch without a quantity group: quantity defaults to
1 and the unit price is the total itself. -/
def mkUnitItem (name : String) (total : ℚ) : LineItem :=
  ⟨pyTitle (pyStrip name), 1, total, total⟩

/-- Build a line item from the captures of one pattern, mirroring the
group-arity dispatch of `extract_line_items`.  `Except.error` models an
exception escaping the (uncaught) body of the line loop. -/
def buildItem (arity : Nat) (caps : Caps) : Except String LineItem :=
  if arity = 4 then
    match capsGet caps 1, capsGet caps 3, capsGet caps 4 with
    | some name, some qty, some price =>
      match pyFloatE price with
      | .error e => .error e
      | .ok total => .ok (mkQtyItem name (natOfDigits qty.data) total)
    | _, _, _ => .error noneReplaceMsg
  else if arity = 3 then
    match capsGet caps 1, capsGet caps 3 with
    | some name, some price =>
      match capsGet caps 2 with
      | none => .error noneReplaceMsg
      | some qop =>
        if pyIsdigit qop then
          match pyFloatE price with
          | .error e => .error e
          | .ok total => .ok (mkQtyItem name (natOfDigits qop.data) total)
        else
          match pyFloatE qop with
          | .error e => .error e
          | .ok total => .ok (mkUnitItem name total)
    | _, _ => .error noneReplaceMsg
  else
    match capsGet caps 1, capsGet caps 2 with
    | some name, some price =>
      match pyFloatE price with
      | .error e => .error e
      | .ok total => .ok (mkUnitItem name total)
    | _, _ => .error noneReplaceMsg

/-- Try the patterns in order on one line; a matched item whose total is
below 10 sends control to the NEXT pattern (the Python `continue`
continues the inner pattern loop, not the line loop). -/
def lineLoop : List (Nat × RE) → String → Except String (Option LineItem)
  | [], _ => .ok none
  | (ar, p) :: ps, line =>
    match reMatchStart p line.data with
    | none => lineLoop ps line
    | some caps =>
      match buildItem ar caps with
      | .error e => .error e
      | .ok item =>
        if item.total_price < 10 then lineLoop ps line else .ok (some item)

def itemSkipKws : List String :=
  ["item name", "subtotal", "total", "discount", "settled", "thank you", "receipt", "===="]

/-- Whether a line is skipped before any pattern is tried. -/
def skipLine (line : String) : Bool :=
  itemSkipKws.any (fun k => occursIn k (pyLower line)) ||
    line.length < 5 || !(line.data.any Char.isDigit)

/-- Result of one line: skipped lines yield nothing. -/
def lineResult (line : String) : Except String (Option LineItem) :=
  if skipLine line then .ok none else lineLoop itemPatterns line

def itemsGo : List String → Except String (List LineItem)
  | [] => .ok []
  | l :: ls =>
    match lineResult l with
    | .error e => .error e
    | .ok none => itemsGo ls
    | .ok (some it) =>
      match itemsGo ls with
      | .error e => .error e
      | .ok rest => .ok (it :: rest)

/-- `extract_line_items` over the non-empty stripped lines.  An
`Except.error` is an exception escaping to the caller (the function body
has no handler of its own). -/
def extract_line_items (text : String) : Except String (List LineItem) :=
  itemsGo (linesOf text)

/-- The single output record of the pipeline. -/
structure ExtractionResult where
  vendor : Option String
  amount : Option ℚ
  date : Option String
  category : String
  line_items : List LineItem
  raw_text : String
  success : Bool
  error : Option String
deriving DecidableEq, Repr

def insufficientMsg : String := "Could not extract meaningful text from image"

/-- The insufficient-input result (text kept in `raw_text`). -/
def insufficientResult (text : String) : ExtractionResult :=
  ⟨none, none, none, "other", [], text, false, some insufficientMsg⟩

/-- The catch-all result of the outer `except` handler: every field
reset, `raw_text` the empty string, the exception text in `error`. -/
def faultResult (e : String) : ExtractionResult :=
  ⟨none, none, none, "other", [], "", false, some e⟩

/-- The guarded body of `process_receipt` past the length check: the four
extractors and the classifier run on the same text; the only possible
exception comes from `extract_line_items`. -/
def pipelineE (text : String) : Except String ExtractionResult :=
  match extract_line_items text with
  | .error e => .error e
  | .ok items =>
    .ok ⟨extract_vendor text, extract_amount text, extract_date text,
      classify_category (extract_vendor text) text, items, text, true, none⟩

/-- The guard `not text or len(text.strip()) < 10`. -/
def shortText (text : String) : Bool :=
  text = "" || (pyStrip text).length < 10

/-- `process_receipt` from the point where text is in hand (text
acquisition from the image file is outside this core): short or empty
text yields the fixed insufficient-input result; otherwise the body runs
and any exception is converted by the outer handler into a failure
result. -/
def process_receipt (text : String) : ExtractionResult :=
  if shortText text then insufficientResult text
  else
    match pipelineE text with
    | .ok r => r
    | .error e => faultResult e

end OcrProcessor

/-! ## simple_ocr.py (vendor extraction) -/

namespace SimpleOcr

/-- `recipient\s+details\s+([A-Z][A-Z\s&.-]+(?:LTD|LIMITED|INC|COMPANY|CORP|PLC))` -/
def recipPattern1 : RE :=
  rcat [rliti "recipient", rplus wsC, rliti "details", rplus wsC,
    RE.grp 1 (rcat [alphaC, rplus vendorC, OcrProcessor.companySuffix])]

/-- `([A-Z][A-Za-z\s&.-]+(?:STORES?|SHOPPING|COMMUNICATIONS?|BANK|NIGERIA)(?:\s+(?:LIMITED|LTD|PLC))?)` -/
def recipPattern2 : RE :=
  RE.grp 1 (rcat [alphaC, rplus vendorC,
    ralt [rcat [rliti "STORE", ropt (rliti "S")], rliti "SHOPPING",
      rcat [rliti "COMMUNICATION", ropt (rliti "S")], rliti "BANK", rliti "NIGERIA"],
    ropt (rcat [rplus wsC, ralt [rliti "LIMITED", rliti "LTD", rliti "PLC"]])])

def vendorPattern1 : RE :=
  RE.grp 1 (rcat [alphaC, rplus vendorC,
    ralt [rliti "Corporation", rliti "Corp", rliti "Ltd", rliti "Limited",
      rliti "Inc", rliti "Company", rliti "LLC", rliti "PLC"]])

def vendorPattern2 : RE :=
  RE.grp 1 (rcat [rliti "Railway", rplus wsC, rliti "Corporation"])

def vendorPattern3 : RE :=
  RE.grp 1 (rcat [alphaC, RE.rep alphaWsC 2 (some 20) true, OcrProcessor.companySuffix])

/-- The label-anchored stage applied to one line: the line must contain
"recipient details" case-insensitively, the split is on the literal
"Details" (case-sensitive, as in the source), and the stripped remainder
must be longer than 3 characters. -/
def recipLine (line : String) : Option String :=
  if occursIn "recipient details" (pyLower line) then
    match splitOnce line "Details" with
    | some pr =>
      if 3 < (pyStrip pr.2).length then some (pyStrip pr.2) else none
    | none => none
  else none

/-- Stage over the pattern lists: first capture longer than 3 characters
(the second list additionally rejects names containing "bank"). -/
def patStage (pats : List RE) (checkBank : Bool) (text : String) : Option String :=
  pats.findSome? (fun p =>
    (findallG1 p text.data).findSome? (fun m =>
      let v := pyStrip m
      if 3 < v.length && (!checkBank || !occursIn "bank" (pyLower v)) then some v
      else none))

def opayIndicators : List String := ["opay", "pay transaction", "#"]

/-- The company-name indicator substrings of the personal-transfer check
in `classify_category` of simple_ocr.py — the "recognized company
suffixes" of the specification. -/
def companyIndicators : List String :=
  ["ltd", "limited", "inc", "corp", "company", "plc", "stores", "bank", "communications"]

/-- Uppercase-ratio fallback over the first five lines: skip boilerplate,
then return the first line of length 4..49 whose ratio of uppercase
letters to non-space characters exceeds one half (the source guard
`upper / nonspace > 0.5` taken in exact arithmetic:
`nonspace < 2 * upper`). -/
def upperFallback (lines : List String) : Option String :=
  (lines.take 5).findSome? (fun line =>
    if ["invoice", "receipt", "transaction", "date", "bill to", "@"].any
        (fun k => occursIn k (pyLower line)) then none
    else if 3 < line.length && line.length < 50 &&
        (line.data.filter (fun c => c ≠ ' ')).length
          < 2 * (line.data.filter Char.isUpper).length then
      some (pyStrip line)
    else none)

/-- `extract_vendor` of simple_ocr.py: known aliases, then the
label-anchored line stage, then the recipient patterns, then the OPay
heuristic, then the general company patterns, then the uppercase
fallback. -/
def extract_vendor (text : String) : Option String :=
  let tl := pyLower text
  let lines := linesOf text
  if occursIn "railway corporation" tl then some "Railway Corporation"
  else if occursIn "electro galactica" tl then some "Electro Galactica Company LTD"
  else
    match lines.findSome? recipLine with
    | some v => some v
    | none =>
      match patStage [recipPattern1, recipPattern2] false text with
      | some v => some v
      | none =>
        if (opayIndicators.any (fun k => occursIn k tl)) && occursIn "recipient" tl then
          some "OPay"
        else
          match patStage [vendorPattern1, vendorPattern2, vendorPattern3] true text with
          | some v => some v
          | none => upperFallback lines

end SimpleOcr

/-! ## Supporting lemmas -/

theorem qAdd_eq (a b : ℚ) : qAdd a b = a + b := by
  rw [qAdd, ← Rat.num_divInt_den a, ← Rat.num_divInt_den b, Rat.divInt_add_divInt _ _
    (by exact_mod_cast a.den_nz) (by exact_mod_cast b.den_nz)]
  simp [Rat.num_divInt_den]

theorem qMul_eq (a b : ℚ) : qMul a b = a * b := by
  rw [qMul, ← Rat.num_divInt_den a, ← Rat.num_divInt_den b, Rat.divInt_mul_divInt _ _
    (by exact_mod_cast a.den_nz) (by exact_mod_cast b.den_nz)]
  simp [Rat.num_divInt_den]

theorem qDiv_eq (a b : ℚ) : qDiv a b = a / b := by
  rcases eq_or_ne b 0 with hb | hb
  · subst hb
    simp [qDiv]
  · have hbn : b.num ≠ 0 := Rat.num_ne_zero.mpr hb
    have had : ((a.den : ℚ)) ≠ 0 := by exact_mod_cast a.den_nz
    have hbd : ((b.den : ℚ)) ≠ 0 := by exact_mod_cast b.den_nz
    have hbnq : ((b.num : ℚ)) ≠ 0 := by exact_mod_cast hbn
    have ha : (a.num : ℚ) = a * (a.den : ℚ) := (div_eq_iff had).mp (Rat.num_div_den a)
    have hbq : (b.num : ℚ) = b * (b.den : ℚ) := (div_eq_iff hbd).mp (Rat.num_div_den b)
    rw [qDiv, Rat.divInt_eq_div]
    push_cast
    field_simp
    rw [ha, hbq]
    ring

theorem qMin_eq (a b : ℚ) : qMin a b = min a b := by
  rw [qMin, min_def]

theorem divInt_decimal (i f k : ℕ) :
    Rat.divInt ((i * 10 ^ k + f : ℕ) : ℤ) (((10 ^ k : ℕ) : ℤ)) =
      (i : ℚ) + (f : ℚ) / (10 : ℚ) ^ k := by
  have h10 : ((10 : ℚ)) ^ k ≠ 0 := by positivity
  rw [Rat.divInt_eq_div]
  push_cast
  field_simp

theorem natOfDigits_foldl (l : List Char) (a : ℕ) :
    l.foldl (fun x c => 10 * x + (c.toNat - 48)) a = a * 10 ^ l.length + natOfDigits l := by
  induction l generalizing a with
  | nil => simp [natOfDigits]
  | cons c cs ih =>
    simp only [List.foldl_cons, natOfDigits, List.length_cons]
    rw [ih (10 * a + (c.toNat - 48)), ih (10 * 0 + (c.toNat - 48))]
    ring

theorem natOfDigits_cons (c : Char) (cs : List Char) :
    natOfDigits (c :: cs) = (c.toNat - 48) * 10 ^ cs.length + natOfDigits cs := by
  show List.foldl _ (10 * 0 + (c.toNat - 48)) cs = _
  rw [natOfDigits_foldl]
  ring

theorem isDigit_ne_dot {c : Char} (h : c.isDigit = true) : ¬(c = '.') := by
  intro hc
  subst hc
  simp [Char.isDigit] at h

theorem notDot_true {c : Char} (h : ¬(c = '.')) : notDot c = true := by
  simp [notDot, h]

theorem notDot_false : notDot '.' = false := by
  simp [notDot]

theorem decGo_frac (fp : List Char) (acc scale : ℚ) (seen : Bool) :
    decGo fp acc true scale seen =
      (if fp.all Char.isDigit && (seen || !fp.isEmpty) then
        some (acc + scale * (natOfDigits fp : ℚ) / (10 : ℚ) ^ fp.length)
      else none) := by
  induction fp generalizing acc scale seen with
  | nil =>
    cases seen <;> simp [decGo, natOfDigits]
  | cons c fp ih =>
    by_cases hc : c.isDigit = true
    · rw [decGo]
      simp only [hc, if_pos rfl, if_true]
      rw [ih]
      simp only [List.all_cons, hc, Bool.true_and, List.isEmpty_cons, Bool.not_false,
        Bool.or_true, Bool.and_true]
      by_cases hall : fp.all Char.isDigit = true
      · simp only [hall, if_true, Bool.true_and]
        rw [natOfDigits_cons]
        have h10 : ((10 : ℚ)) ^ fp.length ≠ 0 := by positivity
        push_cast
        field_simp
        ring
      · simp [hall]
    · rw [decGo]
      simp only [hc]
      by_cases hdot : c = '.'
      · subst hdot
        simp [List.all_cons]
      · simp [hdot, List.all_cons, hc]

theorem decGo_int (cs : List Char) (acc : ℚ) (seen : Bool) :
    decGo cs acc false 1 seen =
      (if (cs.takeWhile notDot).all Char.isDigit then
        match cs.dropWhile notDot with
        | [] =>
          if seen || !(cs.takeWhile notDot).isEmpty then
            some (acc * (10 : ℚ) ^ (cs.takeWhile notDot).length +
              (natOfDigits (cs.takeWhile notDot) : ℚ))
          else none
        | _ :: fp =>
          if fp.all Char.isDigit && (seen || !(cs.takeWhile notDot).isEmpty || !fp.isEmpty) then
            some (acc * (10 : ℚ) ^ (cs.takeWhile notDot).length +
              (natOfDigits (cs.takeWhile notDot) : ℚ) +
              (natOfDigits fp : ℚ) / (10 : ℚ) ^ fp.length)
          else none
      else none) := by
  induction cs generalizing acc seen with
  | nil =>
    cases seen <;> simp [decGo, natOfDigits]
  | cons c cs ih =>
    by_cases hc : c.isDigit = true
    · have hne : ¬(c = '.') := isDigit_ne_dot hc
      have hnd : notDot c = true := notDot_true hne
      rw [decGo]
      simp only [hc, if_true, Bool.false_eq_true, if_false]
      rw [ih]
      simp only [List.takeWhile_cons, List.dropWhile_cons, hnd, if_true, List.all_cons, hc,
        Bool.true_and, List.isEmpty_cons, Bool.not_false, Bool.or_true, Bool.true_or,
        List.length_cons]
      by_cases hall : (cs.takeWhile notDot).all Char.isDigit = true
      · simp only [hall, if_true]
        cases hdw : cs.dropWhile notDot with
        | nil =>
          rw [natOfDigits_cons]
          push_cast
          ring_nf
        | cons d fp =>
          by_cases hfp : fp.all Char.isDigit = true
          · simp only [hfp, Bool.true_and, Bool.or_true, Bool.true_or, if_true]
            rw [natOfDigits_cons]
            push_cast
            ring_nf
          · simp [hfp]
      · simp [hall]
    · by_cases hdot : c = '.'
      · subst hdot
        rw [decGo]
        simp only [(by decide : ('.').isDigit = false), Bool.false_eq_true, if_false, if_pos rfl]
        rw [decGo_frac]
        simp only [List.takeWhile_cons, List.dropWhile_cons, notDot_false, Bool.false_eq_true,
          if_false, List.all_nil, List.isEmpty_nil, Bool.not_true, Bool.or_false, natOfDigits,
          List.length_nil, pow_zero, mul_one, List.foldl_nil, Nat.cast_zero, add_zero, zero_add,
          one_mul, if_true]
      · have hnd : notDot c = true := notDot_true hdot
        rw [decGo]
        simp only [hc, Bool.false_eq_true, if_false]
        simp [hdot, List.takeWhile_cons, hnd, List.all_cons, hc]


theorem pyFloat_eq_decimalValue (s : String) : pyFloat s = decimalValue s := by
  rw [decimalValue, decGo_int, pyFloat]
  cases hdw : s.data.dropWhile notDot with
  | nil =>
    by_cases hall : (s.data.takeWhile notDot).all Char.isDigit = true
    · by_cases hemp : (s.data.takeWhile notDot).isEmpty = true
      · simp [hall, hemp]
      · simp [hall, hemp]
    · simp [hall]
  | cons d fp =>
    by_cases hall : (s.data.takeWhile notDot).all Char.isDigit = true
    · by_cases hfp : fp.all Char.isDigit = true
      · by_cases hcond : ((!(s.data.takeWhile notDot).isEmpty || !fp.isEmpty)) = true
        · simp only [hall, hfp, hcond, Bool.and_true, Bool.true_and, Bool.false_or,
            if_true, divInt_decimal, zero_mul, zero_add]
        · simp [hall, hfp, hcond]
      · simp [hall, hfp]
    · simp [hall]

namespace OcrProcessor

theorem sortDescBy_head {α : Type} (f : α → ℚ) :
    ∀ l : List α, l ≠ [] →
      ∃ k, ∃ hk : k < l.length, (sortDescBy f l).head? = some (l.get ⟨k, hk⟩) ∧
        (∀ j, ∀ hj : j < l.length, f (l.get ⟨j, hj⟩) ≤ f (l.get ⟨k, hk⟩)) ∧
        (∀ j, ∀ hj : j < k, f (l.get ⟨j, Nat.lt_trans hj hk⟩) < f (l.get ⟨k, hk⟩)) := by
  intro l
  induction l with
  | nil => intro h; exact absurd rfl h
  | cons x xs ih =>
    intro _
    by_cases hx : xs = []
    · subst hx
      refine ⟨0, by simp, by simp [sortDescBy, insertDescBy], ?_, ?_⟩
      · intro j hj
        cases j with
        | zero => exact le_refl _
        | succ j =>
          simp only [List.length_singleton] at hj
          omega
      · intro j hj
        omega
    · obtain ⟨k, hk, hhead, hmax, hstrict⟩ := ih hx
      cases hs : sortDescBy f xs with
      | nil =>
        rw [hs] at hhead
        simp at hhead
      | cons m t =>
        rw [hs] at hhead
        simp only [List.head?_cons, Option.some.injEq] at hhead
        by_cases hcmp : f m ≤ f x
        · refine ⟨0, by simp, ?_, ?_, ?_⟩
          · simp [sortDescBy, hs, insertDescBy, hcmp]
          · intro j hj
            cases j with
            | zero => exact le_refl _
            | succ j =>
              have hj2 : j < xs.length := by simpa using hj
              calc f ((x :: xs).get ⟨j + 1, hj⟩) = f (xs.get ⟨j, hj2⟩) := rfl
                _ ≤ f (xs.get ⟨k, hk⟩) := hmax j hj2
                _ = f m := by rw [hhead]
                _ ≤ f x := hcmp
          · intro j hj
            omega
        · push_neg at hcmp
          refine ⟨k + 1, by simpa using Nat.succ_lt_succ hk, ?_, ?_, ?_⟩
          · show (insertDescBy f x (sortDescBy f xs)).head? = _
            rw [hs]
            simp only [insertDescBy, if_neg (not_le.mpr hcmp), List.head?_cons,
              Option.some.injEq]
            rw [hhead]
            rfl
          · intro j hj
            cases j with
            | zero =>
              show f x ≤ f ((x :: xs).get ⟨k + 1, _⟩)
              calc f x ≤ f m := le_of_lt hcmp
                _ = f (xs.get ⟨k, hk⟩) := by rw [hhead]
                _ = f ((x :: xs).get ⟨k + 1, by simpa using Nat.succ_lt_succ hk⟩) := rfl
            | succ j =>
              have hj2 : j < xs.length := by simpa using hj
              exact hmax j hj2
          · intro j hj
            cases j with
            | zero =>
              show f x < f ((x :: xs).get ⟨k + 1, _⟩)
              calc f x < f m := hcmp
                _ = f (xs.get ⟨k, hk⟩) := by rw [hhead]
                _ = f ((x :: xs).get ⟨k + 1, by simpa using Nat.succ_lt_succ hk⟩) := rfl
            | succ j =>
              have hj2 : j < k := by omega
              exact hstrict j hj2


theorem significantAmounts_sub (text : String) (h : significantAmounts text ≠ []) :
    amountCandidates text ≠ [] := by
  intro hc
  apply h
  rw [significantAmounts, hc]
  rfl

theorem scoreOf_spec (text : String) (c : ℚ × Nat) :
    scoreOf text c = (c.2 : ℚ) / (text.length : ℚ) * 100 + min c.1 1000 +
      (if keywordNear text c.2 then 50 else 0) := by
  rw [scoreOf, qAdd_eq, qAdd_eq, qMul_eq, qDiv_eq, qMin_eq]

theorem extract_amount_argmax (text : String) (h : significantAmounts text ≠ []) :
    ∃ k, ∃ hk : k < (significantAmounts text).length,
      extract_amount text = some (((significantAmounts text).get ⟨k, hk⟩).1) ∧
      (∀ j, ∀ hj : j < (significantAmounts text).length,
        scoreOf text ((significantAmounts text).get ⟨j, hj⟩) ≤
          scoreOf text ((significantAmounts text).get ⟨k, hk⟩)) ∧
      (∀ j, ∀ hj : j < k,
        scoreOf text ((significantAmounts text).get ⟨j, Nat.lt_trans hj hk⟩) <
          scoreOf text ((significantAmounts text).get ⟨k, hk⟩)) := by
  obtain ⟨k, hk, hhead, hmax, hstrict⟩ :=
    sortDescBy_head (scoreOf text) (significantAmounts text) h
  refine ⟨k, hk, ?_, hmax, hstrict⟩
  have hcand := significantAmounts_sub text h
  cases hc : amountCandidates text with
  | nil => exact absurd hc hcand
  | cons c rest =>
    simp only [extract_amount, hc, if_neg h]
    rw [hhead]

end OcrProcessor

namespace OcrProcessor

theorem mkQtyItem_props (name : String) (n : Nat) (total : ℚ) :
    0 ≤ (mkQtyItem name n total).quantity ∧
      ((mkQtyItem name n total).quantity = 0 →
        (mkQtyItem name n total).unit_price = (mkQtyItem name n total).total_price) ∧
      (0 < (mkQtyItem name n total).quantity →
        (mkQtyItem name n total).unit_price * (((mkQtyItem name n total).quantity : Int) : ℚ) =
          (mkQtyItem name n total).total_price) := by
  refine ⟨Int.natCast_nonneg n, ?_, ?_⟩
  · intro h0
    simp only [mkQtyItem] at h0 ⊢
    rw [if_neg]
    omega
  · intro hpos
    simp only [mkQtyItem] at hpos ⊢
    rw [if_pos hpos, qDiv_eq]
    have hne : (((n : Int)) : ℚ) ≠ 0 := by
      exact_mod_cast ne_of_gt hpos
    exact div_mul_cancel₀ total hne

theorem mkUnitItem_props (name : String) (total : ℚ) :
    0 ≤ (mkUnitItem name total).quantity ∧
      ((mkUnitItem name total).quantity = 0 →
        (mkUnitItem name total).unit_price = (mkUnitItem name total).total_price) ∧
      (0 < (mkUnitItem name total).quantity →
        (mkUnitItem name total).unit_price * (((mkUnitItem name total).quantity : Int) : ℚ) =
          (mkUnitItem name total).total_price) := by
  refine ⟨by norm_num [mkUnitItem], ?_, ?_⟩
  · intro h0
    simp [mkUnitItem] at h0
  · intro _
    simp [mkUnitItem]

theorem buildItem_shape (ar : Nat) (caps : Caps) (it : LineItem)
    (h : buildItem ar caps = .ok it) :
    (∃ name n total, it = mkQtyItem name n total) ∨
      (∃ name total, it = mkUnitItem name total) := by
  unfold buildItem at h
  repeat' split at h
  all_goals first
    | exact Except.noConfusion h
    | exact Or.inl ⟨_, _, _, (Except.ok.inj h).symm⟩
    | exact Or.inr ⟨_, _, (Except.ok.inj h).symm⟩

theorem buildItem_props (ar : Nat) (caps : Caps) (it : LineItem)
    (h : buildItem ar caps = .ok it) :
    0 ≤ it.quantity ∧ (it.quantity = 0 → it.unit_price = it.total_price) ∧
      (0 < it.quantity → it.unit_price * ((it.quantity : Int) : ℚ) = it.total_price) := by
  rcases buildItem_shape ar caps it h with ⟨name, n, total, rfl⟩ | ⟨name, total, rfl⟩
  · exact mkQtyItem_props name n total
  · exact mkUnitItem_props name total

theorem lineLoop_some_props :
    ∀ (ps : List (Nat × RE)) (line : String) (it : LineItem),
      lineLoop ps line = .ok (some it) →
      ¬(it.total_price < 10) ∧ 0 ≤ it.quantity ∧
        (it.quantity = 0 → it.unit_price = it.total_price) ∧
        (0 < it.quantity → it.unit_price * ((it.quantity : Int) : ℚ) = it.total_price) := by
  intro ps
  induction ps with
  | nil =>
    intro line it h
    simp [lineLoop] at h
  | cons hd ps ih =>
    intro line it h
    rw [lineLoop] at h
    split at h
    · exact ih line it h
    next caps hm =>
      split at h
      next e hb => exact Except.noConfusion h
      next item hb =>
        split at h
        · exact ih line it h
        next hsm =>
          have hit : item = it := Option.some.inj (Except.ok.inj h)
          subst hit
          exact ⟨hsm, buildItem_props hd.1 caps item hb⟩

theorem lineResult_some_props (line : String) (it : LineItem)
    (h : lineResult line = .ok (some it)) :
    ¬(it.total_price < 10) ∧ 0 ≤ it.quantity ∧
      (it.quantity = 0 → it.unit_price = it.total_price) ∧
      (0 < it.quantity → it.unit_price * ((it.quantity : Int) : ℚ) = it.total_price) := by
  unfold lineResult at h
  split at h
  · exact Option.noConfusion (Except.ok.inj h)
  · exact lineLoop_some_props itemPatterns line it h

theorem itemsGo_ok :
    ∀ (ls : List String) (items : List LineItem), itemsGo ls = .ok items →
      items = ls.filterMap (fun l => ((lineResult l).toOption).join) ∧
      ∀ it ∈ items,
        ¬(it.total_price < 10) ∧ 0 ≤ it.quantity ∧
          (it.quantity = 0 → it.unit_price = it.total_price) ∧
          (0 < it.quantity → it.unit_price * ((it.quantity : Int) : ℚ) = it.total_price) := by
  intro ls
  induction ls with
  | nil =>
    intro items h
    have : ([] : List LineItem) = items := Except.ok.inj h
    subst this
    exact ⟨rfl, by intro it hit; exact absurd hit (List.not_mem_nil it)⟩
  | cons l ls ih =>
    intro items h
    rw [itemsGo] at h
    cases hr : lineResult l with
    | error e =>
      rw [hr] at h
      exact Except.noConfusion h
    | ok o =>
      rw [hr] at h
      cases o with
      | none =>
        obtain ⟨hfm, hmem⟩ := ih items h
        refine ⟨?_, hmem⟩
        rw [List.filterMap_cons]
        simp only [hr, Except.toOption, Option.join, Option.some_bind, id_eq]
        exact hfm
      | some it =>
        cases hi : itemsGo ls with
        | error e =>
          rw [hi] at h
          exact Except.noConfusion h
        | ok rest =>
          rw [hi] at h
          have : it :: rest = items := Except.ok.inj h
          subst this
          obtain ⟨hfm, hmem⟩ := ih rest hi
          constructor
          · rw [List.filterMap_cons]
            simp only [hr, Except.toOption, Option.join, Option.some_bind, id_eq]
            rw [hfm]
            rfl
          · intro it2 hit2
            rcases List.mem_cons.mp hit2 with h2 | h2
            · subst h2
              exact lineResult_some_props l it2 hr
            · exact hmem it2 h2

theorem extract_line_items_ok (text : String) (items : List LineItem)
    (h : extract_line_items text = .ok items) :
    items = (linesOf text).filterMap (fun l => ((lineResult l).toOption).join) ∧
      ∀ it ∈ items,
        ¬(it.total_price < 10) ∧ 0 ≤ it.quantity ∧
          (it.quantity = 0 → it.unit_price = it.total_price) ∧
          (0 < it.quantity → it.unit_price * ((it.quantity : Int) : ℚ) = it.total_price) :=
  itemsGo_ok (linesOf text) items h

end OcrProcessor

theorem isSubL_iff_infix : ∀ (n h : List Char), isSubL n h = true ↔ n <:+: h := by
  intro n h
  induction h with
  | nil =>
    simp [isSubL, List.isEmpty_iff, List.infix_nil]
  | cons c cs ih =>
    rw [isSubL, Bool.or_eq_true, List.isPrefixOf_iff_prefix, ih, List.infix_cons_iff]

theorem occursIn_infix_iff (n h : String) : occursIn n h = true ↔ n.data <:+: h.data :=
  isSubL_iff_infix n.data h.data

/-- A needle that is already lower case and occurs in a text also occurs
in the lower-cased extension of that text by any prefix. -/
theorem occursIn_lower_append (k pre text : String) (hk : pyLower k = k)
    (h : occursIn k text = true) : occursIn k (pyLower (pre ++ text)) = true := by
  rw [occursIn_infix_iff] at h ⊢
  have hmap : k.data.map Char.toLower <:+: text.data.map Char.toLower :=
    List.IsInfix.map Char.toLower h
  have hkd : k.data.map Char.toLower = k.data := congrArg String.data hk
  rw [hkd] at hmap
  have hdata : (pyLower (pre ++ text)).data =
      pre.data.map Char.toLower ++ text.data.map Char.toLower := by
    show (pre ++ text).data.map Char.toLower = _
    rw [String.data_append, List.map_append]
  rw [hdata]
  obtain ⟨u, v, huv⟩ := hmap
  exact ⟨pre.data.map Char.toLower ++ u, v, by rw [← huv]; simp⟩

namespace OcrProcessor

theorem pipelineE_ok (text : String) (r : ExtractionResult)
    (h : pipelineE text = .ok r) :
    r.success = true ∧ r.error = none ∧ r.raw_text = text := by
  unfold pipelineE at h
  split at h
  · exact Except.noConfusion h
  · have hr := Except.ok.inj h
    subst hr
    exact ⟨rfl, rfl, rfl⟩

end OcrProcessor

namespace OcrProcessor

theorem short_of_shortText (text : String) (h : shortText text = true) :
    (pyStrip text).length < 10 := by
  unfold shortText at h
  simp only [Bool.or_eq_true, decide_eq_true_eq] at h
  rcases h with h | h
  · rw [h]
    decide
  · exact h

theorem shortText_false (text : String) (h : ¬((pyStrip text).length < 10)) :
    shortText text = false := by
  unfold shortText
  have ht : ¬(text = "") := fun he => h (by rw [he]; decide)
  simp [ht, h]

theorem process_receipt_short (text : String) (h : (pyStrip text).length < 10) :
    process_receipt text = insufficientResult text := by
  have hg : shortText text = true := by
    unfold shortText
    simp [h]
  unfold process_receipt
  rw [hg, if_pos rfl]

theorem process_receipt_of_ok (text : String) (r : ExtractionResult)
    (hg : shortText text = false) (h : pipelineE text = .ok r) :
    process_receipt text = r := by
  unfold process_receipt
  rw [hg, if_neg (by simp), h]

theorem process_receipt_of_error (text : String) (e : String)
    (hg : shortText text = false) (h : pipelineE text = .error e) :
    process_receipt text = faultResult e := by
  unfold process_receipt
  rw [hg, if_neg (by simp), h]

end OcrProcessor

/-! ## The claims -/

set_option maxRecDepth 40000

namespace OcrProcessor

/-- C1: for every input text, `process_receipt` returns an
`ExtractionResult` whose `success`/`error` pair records every failure (a
message is present whenever `success` is false, and `error` is empty only
on success), and an internal fault `e` raised by the guarded body is
caught at the boundary and converted into the failure result carrying the
message of the fault — in the embedding `process_receipt` is a total
function, so no exception crosses the boundary. -/
theorem c1_process_never_throws (text : String) :
    ((process_receipt text).success = false → (process_receipt text).error ≠ none) ∧
    ((process_receipt text).error = none → (process_receipt text).success = true) ∧
    (∀ e, shortText text = false → pipelineE text = .error e →
      process_receipt text = faultResult e ∧ (faultResult e).success = false ∧
        (faultResult e).error = some e) := by
  by_cases hg : shortText text = true
  · have hp : process_receipt text = insufficientResult text :=
      process_receipt_short text (short_of_shortText text hg)
    refine ⟨?_, ?_, ?_⟩
    · intro _
      rw [hp]
      simp [insufficientResult]
    · intro h
      rw [hp] at h
      simp [insufficientResult] at h
    · intro e hf _
      rw [hg] at hf
      exact Bool.noConfusion hf
  · have hg2 : shortText text = false := by
      cases h2 : shortText text
      · rfl
      · exact absurd h2 hg
    cases hpe : pipelineE text with
    | ok r =>
      have hp : process_receipt text = r := process_receipt_of_ok text r hg2 hpe
      obtain ⟨hs, he, -⟩ := pipelineE_ok text r hpe
      refine ⟨?_, ?_, ?_⟩
      · intro hfalse
        rw [hp, hs] at hfalse
        exact Bool.noConfusion hfalse
      · intro _
        rw [hp]
        exact hs
      · intro e _ hpe2
        exact Except.noConfusion hpe2
    | error e0 =>
      have hp : process_receipt text = faultResult e0 :=
        process_receipt_of_error text e0 hg2 hpe
      refine ⟨?_, ?_, ?_⟩
      · intro _
        rw [hp]
        simp [faultResult]
      · intro h
        rw [hp] at h
        simp [faultResult] at h
      · intro e _ hpe2
        have he : e0 = e := Except.error.inj hpe2
        subst he
        exact ⟨hp, rfl, rfl⟩

/-- Witness for C1 at an input whose line-item pass raises an internal
fault (pattern 3 matches with a non-participating quantity group). -/
theorem c1_witness :
    (process_receipt "0123456789\nItem ,00").success = false ∧
      (process_receipt "0123456789\nItem ,00").error = some noneReplaceMsg := by
  have h := (c1_process_never_throws "0123456789\nItem ,00").2.2 noneReplaceMsg
    (by decide) (by decide)
  rw [h.1]
  exact ⟨h.2.1, h.2.2⟩

/-- C2: when the stripped input is shorter than 10 characters (the empty
text included), `process_receipt` returns failure with the fixed message
"Could not extract meaningful text from image", all extracted fields
null, no line items, category "other", and the given text preserved in
`raw_text`. -/
theorem c2_short_input (text : String) (h : (pyStrip text).length < 10) :
    process_receipt text =
      ⟨none, none, none, "other", [], text, false, some insufficientMsg⟩ :=
  process_receipt_short text h

/-- Witness for C2 at the concrete short input "hi". -/
theorem c2_witness :
    process_receipt "hi" =
      ⟨none, none, none, "other", [], "hi", false, some insufficientMsg⟩ :=
  c2_short_input "hi" (by decide)

/-- C3 counterexample: on scenario 1 the date field is NOT "2024-12-31".
The short numeric date pattern (one or two digits, dash or slash,
repeated) is tried before the ISO pattern and matches "24-12-31" first. -/
theorem c3_counterexample :
    ¬((process_receipt "TOTAL: $12.34\nBig Store LTD\n2024-12-31").date =
      some "2024-12-31") := by
  decide

/-- C3 amended: on scenario 1 the amount is 12.34 and the vendor is (and
hence contains) "Big Store LTD" as claimed, but the date is the matched
substring "24-12-31", not "2024-12-31". -/
theorem c3_amended :
    (process_receipt "TOTAL: $12.34\nBig Store LTD\n2024-12-31").amount =
        some (12.34 : ℚ) ∧
      (process_receipt "TOTAL: $12.34\nBig Store LTD\n2024-12-31").vendor =
        some "Big Store LTD" ∧
      occursIn "Big Store LTD"
        (((process_receipt "TOTAL: $12.34\nBig Store LTD\n2024-12-31").vendor).getD "") =
        true ∧
      (process_receipt "TOTAL: $12.34\nBig Store LTD\n2024-12-31").date =
        some "24-12-31" := by
  have h : process_receipt "TOTAL: $12.34\nBig Store LTD\n2024-12-31" =
      ⟨some "Big Store LTD", some (Rat.divInt 1234 100), some "24-12-31", "fuel", [],
        "TOTAL: $12.34\nBig Store LTD\n2024-12-31", true, none⟩ := by decide
  rw [h]
  refine ⟨?_, rfl, by decide, rfl⟩
  show some (Rat.divInt 1234 100) = some (12.34 : ℚ)
  congr 1
  rw [Rat.divInt_eq_div]
  norm_num

/-- C4: the amount selector scores each significant candidate as
normalized position times 100, plus the magnitude capped at 1000, plus a
bonus of 50 when a keyword of {"total", "due", "amount due", "pay"} lies
in the 50-character window around the match; when at least one candidate
of value at least 0.50 survives filtering, the returned amount is the
candidate with the highest composite score, the earliest such candidate
on ties (every strictly earlier candidate scores strictly lower). -/
theorem c4_weighted_selection :
    (∀ (text : String) (c : ℚ × Nat),
      scoreOf text c = (c.2 : ℚ) / (text.length : ℚ) * 100 + min c.1 1000 +
        (if keywordNear text c.2 then 50 else 0)) ∧
    (∀ text : String, significantAmounts text ≠ [] →
      ∃ k, ∃ hk : k < (significantAmounts text).length,
        extract_amount text = some (((significantAmounts text).get ⟨k, hk⟩).1) ∧
        (∀ j, ∀ hj : j < (significantAmounts text).length,
          scoreOf text ((significantAmounts text).get ⟨j, hj⟩) ≤
            scoreOf text ((significantAmounts text).get ⟨k, hk⟩)) ∧
        (∀ j, ∀ hj : j < k,
          scoreOf text ((significantAmounts text).get ⟨j, Nat.lt_trans hj hk⟩) <
            scoreOf text ((significantAmounts text).get ⟨k, hk⟩))) :=
  ⟨scoreOf_spec, extract_amount_argmax⟩

/-- Witness for C4 at a concrete input with one significant candidate. -/
theorem c4_witness :
    significantAmounts "Sent ₦7,000.00 ok" ≠ [] ∧
      (∃ k, ∃ hk : k < (significantAmounts "Sent ₦7,000.00 ok").length,
        extract_amount "Sent ₦7,000.00 ok" =
          some (((significantAmounts "Sent ₦7,000.00 ok").get ⟨k, hk⟩).1) ∧
        (∀ j, ∀ hj : j < (significantAmounts "Sent ₦7,000.00 ok").length,
          scoreOf "Sent ₦7,000.00 ok" ((significantAmounts "Sent ₦7,000.00 ok").get ⟨j, hj⟩) ≤
            scoreOf "Sent ₦7,000.00 ok" ((significantAmounts "Sent ₦7,000.00 ok").get ⟨k, hk⟩)) ∧
        (∀ j, ∀ hj : j < k,
          scoreOf "Sent ₦7,000.00 ok"
              ((significantAmounts "Sent ₦7,000.00 ok").get ⟨j, Nat.lt_trans hj hk⟩) <
            scoreOf "Sent ₦7,000.00 ok" ((significantAmounts "Sent ₦7,000.00 ok").get ⟨k, hk⟩))) :=
  ⟨by decide, c4_weighted_selection.2 "Sent ₦7,000.00 ok" (by decide)⟩

/-- C5: the value of every accepted numeric candidate is the matched
numeral with commas removed read as a base-10 decimal (the parser used on
candidates agrees with the independent one-pass decimal interpretation on
every comma-stripped string); concretely, "₦7,000.00" with no keyword
context yields 7000, and an unparsable candidate (the all-comma match in
"₦,,") is skipped without aborting the extractor, which still returns
5000 from the later candidate. -/
theorem c5_parse_decimal :
    (∀ s : String, pyFloat (stripCommas s) = decimalValue (stripCommas s)) ∧
    extract_amount "Sent ₦7,000.00 ok" = some 7000 ∧
    extract_amount "₦,, and ₦5,000" = some 5000 :=
  ⟨fun s => pyFloat_eq_decimalValue (stripCommas s), by decide, by decide⟩

/-- C6: the line items of a run that raises no fault are exactly the
per-line extractions of the non-empty stripped source lines in source
order (a `filterMap`, which preserves line order), and no emitted item
has a total price below the noise threshold 10. -/
theorem c6_order_and_threshold (text : String) (items : List LineItem)
    (h : extract_line_items text = .ok items) :
    items = (linesOf text).filterMap (fun l => ((lineResult l).toOption).join) ∧
      ∀ it ∈ items, ¬(it.total_price < 10) := by
  obtain ⟨hfm, hmem⟩ := extract_line_items_ok text items h
  exact ⟨hfm, fun it hit => (hmem it hit).1⟩

/-- Witness for C6 on scenario 5. -/
theorem c6_witness :
    extract_line_items "Big Pack Pcs 2 800.00" =
        .ok [⟨"Big Pack", 2, 400, 800⟩] ∧
      ¬(((⟨"Big Pack", 2, 400, 800⟩ : LineItem)).total_price < 10) := by
  have h : extract_line_items "Big Pack Pcs 2 800.00" =
      .ok [⟨"Big Pack", 2, 400, 800⟩] := by decide
  exact ⟨h, (c6_order_and_threshold _ _ h).2 _ (by simp)⟩

/-- C7 counterexample: the line "Item Pcs 0 800.00" produces a line item
with quantity 0, violating the claimed invariant `quantity ≥ 1` (the
source guards the division by zero but stores the zero quantity). -/
theorem c7_counterexample :
    extract_line_items "Item Pcs 0 800.00" = .ok [⟨"Item", 0, 800, 800⟩] ∧
      ¬(1 ≤ ((⟨"Item", 0, 800, 800⟩ : LineItem)).quantity) := by
  exact ⟨by decide, by decide⟩

/-- C7 amended: every produced line item has a non-negative integer
quantity (zero is possible when the source line encodes an explicit zero
quantity), and both prices are always populated: the unit price equals
the total when the quantity is zero and otherwise satisfies
`unit_price * quantity = total_price` exactly. -/
theorem c7_amended (text : String) (items : List LineItem)
    (h : extract_line_items text = .ok items) :
    ∀ it ∈ items, 0 ≤ it.quantity ∧
      (it.quantity = 0 → it.unit_price = it.total_price) ∧
      (0 < it.quantity → it.unit_price * ((it.quantity : Int) : ℚ) = it.total_price) := by
  intro it hit
  exact ((extract_line_items_ok text items h).2 it hit).2

/-- Witness for C7 on scenario 5. -/
theorem c7_witness :
    0 ≤ ((⟨"Big Pack", 2, 400, 800⟩ : LineItem)).quantity ∧
      (((⟨"Big Pack", 2, 400, 800⟩ : LineItem)).quantity = 0 →
        ((⟨"Big Pack", 2, 400, 800⟩ : LineItem)).unit_price =
          ((⟨"Big Pack", 2, 400, 800⟩ : LineItem)).total_price) ∧
      (0 < ((⟨"Big Pack", 2, 400, 800⟩ : LineItem)).quantity →
        ((⟨"Big Pack", 2, 400, 800⟩ : LineItem)).unit_price *
            ((((⟨"Big Pack", 2, 400, 800⟩ : LineItem)).quantity : Int) : ℚ) =
          ((⟨"Big Pack", 2, 400, 800⟩ : LineItem)).total_price) :=
  c7_amended "Big Pack Pcs 2 800.00" [⟨"Big Pack", 2, 400, 800⟩] (by decide) _ (by simp)

/-- C8 counterexample: on an input whose line-item pass raises, the
exception handler returns `raw_text = ""`, not the input text. -/
theorem c8_counterexample :
    ¬((process_receipt "0123456789\nItem ,00").raw_text = "0123456789\nItem ,00") := by
  decide

/-- C8 amended: `raw_text` equals the input text on the success outcome
and on the insufficient-input failure, but on the internal-fault outcome
the handler resets it to the empty string. -/
theorem c8_amended (text : String) :
    ((pyStrip text).length < 10 → (process_receipt text).raw_text = text) ∧
    (∀ r, pipelineE text = .ok r → (process_receipt text).raw_text = text) ∧
    (∀ e, pipelineE text = .error e → ¬((pyStrip text).length < 10) →
      (process_receipt text).raw_text = "") := by
  refine ⟨?_, ?_, ?_⟩
  · intro h
    rw [process_receipt_short text h]
    rfl
  · intro r hr
    by_cases hlen : (pyStrip text).length < 10
    · rw [process_receipt_short text hlen]
      rfl
    · rw [process_receipt_of_ok text r (shortText_false text hlen) hr]
      exact (pipelineE_ok text r hr).2.2
  · intro e he hlen
    rw [process_receipt_of_error text e (shortText_false text hlen) he]
    rfl

/-- Witness for C8 on a successful run. -/
theorem c8_witness :
    (process_receipt "hello world receipt").raw_text = "hello world receipt" :=
  (c8_amended "hello world receipt").2.1
    ⟨none, none, none, "other", [], "hello world receipt", true, none⟩ (by decide)

/-- C10: when the input text contains the substring "opay" and the vendor
candidate contains no recognized company-indicator substring, the
classifier returns "financial" — "financial" is the first table entry and
"opay" its first keyword, so the keyword table resolves before any later
category and the result is never "other". -/
theorem c10_opay_financial (vendor : Option String) (text : String)
    (h : occursIn "opay" text = true)
    (_hv : (SimpleOcr.companyIndicators.all
      (fun s => !occursIn s (pyLower (vendor.getD "")))) = true) :
    classify_category vendor text = "financial" := by
  have hocc : occursIn "opay" (pyLower ((vendor.getD "") ++ " " ++ text)) = true :=
    occursIn_lower_append "opay" ((vendor.getD "") ++ " ") text (by decide) h
  unfold classify_category
  simp only [categoriesTable, List.findSome?_cons, List.any_cons, hocc, Bool.true_or, if_true]

/-- Witness for C10 with a two-word personal vendor name. -/
theorem c10_witness :
    classify_category (some "John Doe") "Sent via opay ok" = "financial" :=
  c10_opay_financial (some "John Doe") "Sent via opay ok" (by decide) (by decide)

end OcrProcessor

namespace SimpleOcr

/-- C9 counterexample: a line carrying the label "recipient details" in
lower case with a long remainder yields NO vendor at all — the detection
is case-insensitive but the split is on the literal "Details", so the
stage produces no candidate and every later fallback also fails. -/
theorem c9_counterexample :
    occursIn "recipient details" (pyLower "recipient details JOHNDOE WILLIAMS") = true ∧
      4 < (pyStrip "JOHNDOE WILLIAMS").length ∧
      extract_vendor "recipient details JOHNDOE WILLIAMS" = none := by
  exact ⟨by decide, by decide, by decide⟩

/-- C9 amended: when neither known alias occurs, the label stage is the
next stage tried and its candidate is returned as the vendor; on a single
line the stage yields the stripped remainder after the first literal
occurrence of "Details" provided the line contains "recipient details"
case-insensitively and the remainder is longer than 3 characters;
otherwise the stage yields nothing and the later fallbacks run. -/
theorem c9_label_stage :
    (∀ (line : String) (pr : String × String),
      occursIn "recipient details" (pyLower line) = true →
      splitOnce line "Details" = some pr →
      3 < (pyStrip pr.2).length →
      recipLine line = some (pyStrip pr.2)) ∧
    (∀ (text v : String),
      occursIn "railway corporation" (pyLower text) = false →
      occursIn "electro galactica" (pyLower text) = false →
      (linesOf text).findSome? recipLine = some v →
      extract_vendor text = some v) := by
  constructor
  · intro line pr h1 h2 h3
    unfold recipLine
    rw [h1, if_pos rfl]
    simp only [h2]
    rw [if_pos h3]
  · intro text v h1 h2 h3
    unfold extract_vendor
    simp only [h1, h2, h3, Bool.false_eq_true, if_false]

/-- Witness for C9: a transfer receipt with a recipient-details line. -/
theorem c9_witness :
    extract_vendor "Transfer\nRecipient Details John Doe" = some "John Doe" :=
  c9_label_stage.2 "Transfer\nRecipient Details John Doe" "John Doe"
    (by decide) (by decide) (by decide)

end SimpleOcr

end Receipt
